import Mathlib

/-!
Shallow embedding of the trading-account ledger from `accounts.py`.

Modelling conventions:
* Python `datetime` timestamps are modelled as `Nat` (timezone normalization
  to UTC is the identity here, since a timestamp is just its instant).
* Python `float` money/quantity values are modelled as `ℚ`; every amount in
  the program and its scenarios is an exact small decimal.
* Python `dict` is modelled as an association list with unique keys:
  `dGet` reads the first binding, `dSet` overwrites the first binding in
  place or appends a fresh binding at the end, exactly the observable
  behaviour of a Python dict.
* A raised exception is modelled by the `Option AccountError` component of a
  result: mutating methods return `(some error, account-at-raise-time)` when
  they raise and `(none, updated account)` when they return normally.  The
  account in the error case is the state the object had at the moment of the
  raise.  Query methods return `(value, account-after-the-call)`.
* `sorted(xs, key=lambda t: t.timestamp)` is a stable sort; it is embedded
  as a stable insertion sort by timestamp (`sortTxs`), which computes the
  same list as any stable sort with that key.
* The constructor and the four mutating methods take the wall-clock time
  `now` as an explicit argument (Python reads `datetime.utcnow()`).
-/

inductive TxType where
  | deposit
  | withdraw
  | buy
  | sell
deriving DecidableEq

/-- The immutable `Transaction` dataclass record of `accounts.py`. -/
structure Transaction where
  timestamp : Nat
  type : TxType
  symbol : Option String
  quantity : ℚ
  price_per_share : Option ℚ
  total_amount : ℚ
deriving DecidableEq

/-- The `Account` object state: the profit/loss baseline and the append-only
transaction list `self._transactions`. -/
structure Account where
  initial_deposit : ℚ
  transactions : List Transaction
deriving DecidableEq

/-- Errors raised by `accounts.py`.  `attributeError` is the dynamic error
Python raises when a method such as `.get` is called on a `float` value. -/
inductive AccountError where
  | valueError
  | insufficientFunds
  | insufficientHoldings
  | invalidSymbol
  | invalidQuantity
  | attributeError
deriving DecidableEq

/-- `get_share_price`: the fixed catalog; `none` models raising
`InvalidSymbolError` for an unknown symbol. -/
def get_share_price (symbol : String) : Option ℚ :=
  if symbol = "AAPL" then some 150
  else if symbol = "TSLA" then some 800
  else if symbol = "GOOGL" then some 2800
  else none

/-- Read a key from a Python-dict-as-association-list (first binding). -/
def dGet : List (String × ℚ) → String → Option ℚ
  | [], _ => none
  | p :: rest, k => if p.1 = k then some p.2 else dGet rest k

/-- `d.get(k, 0.0)`. -/
def dGetD (d : List (String × ℚ)) (k : String) : ℚ :=
  (dGet d k).getD 0

/-- `d[k] = v`: overwrite the first binding of `k` in place, or append a new
binding at the end, as a Python dict does. -/
def dSet : List (String × ℚ) → String → ℚ → List (String × ℚ)
  | [], k, v => [(k, v)]
  | p :: rest, k, v => if p.1 = k then (k, v) :: rest else p :: dSet rest k v

/-- Insert a transaction into a timestamp-sorted list, after every strictly
earlier element and before every element with an equal or later timestamp. -/
def insertTx (tx : Transaction) : List Transaction → List Transaction
  | [] => [tx]
  | u :: l => if u.timestamp < tx.timestamp then u :: insertTx tx l else tx :: u :: l

/-- Stable sort by timestamp, the embedding of
`sorted(self._transactions, key=lambda t: t.timestamp)`. -/
def sortTxs : List Transaction → List Transaction
  | [] => []
  | u :: l => insertTx u (sortTxs l)

/-- Python truthiness of the `tx.symbol` field: `None` and the empty string
are falsy. -/
def symTruthy : Option String → Bool
  | none => false
  | some s => s ≠ ""

/-- The guard `tx.type in ("buy", "sell") and tx.symbol` of the replay loop. -/
def txAffectsHoldings (tx : Transaction) : Bool :=
  (tx.type == TxType.buy || tx.type == TxType.sell) && symTruthy tx.symbol

/-- One holdings update of the replay loop:
`holdings[tx.symbol] = holdings.get(tx.symbol, 0.0) + tx.quantity`. -/
def replayStep (holdings : List (String × ℚ)) (tx : Transaction) : List (String × ℚ) :=
  if txAffectsHoldings tx then
    dSet holdings (tx.symbol.getD "") (dGetD holdings (tx.symbol.getD "") + tx.quantity)
  else holdings

/-- The `for tx in sorted(...)` loop of `_apply_transactions_up_to`,
with the early `break` on the first transaction past the cutoff. -/
def replayLoop (up_to : Nat) : List Transaction → ℚ → List (String × ℚ) → ℚ × List (String × ℚ)
  | [], cash, holdings => (cash, holdings)
  | tx :: rest, cash, holdings =>
    if up_to < tx.timestamp then (cash, holdings)
    else replayLoop up_to rest (cash + tx.total_amount) (replayStep holdings tx)

/-- `Account._apply_transactions_up_to`. -/
def Account.apply_transactions_up_to (a : Account) (up_to : Nat) : ℚ × List (String × ℚ) :=
  replayLoop up_to (sortTxs a.transactions) 0 []

/-- `Account._latest_timestamp` (only called on the nonempty transaction
lists that the constructor guarantees; `0` stands in for the empty case in
which Python `max` would raise). -/
def Account.latest_timestamp (a : Account) : Nat :=
  (a.transactions.map Transaction.timestamp).foldl max 0

/-- `Account._record_transaction` (timezone normalization is the identity on
`Nat` timestamps). -/
def Account.record_transaction (a : Account) (tx : Transaction) : Account :=
  { a with transactions := a.transactions ++ [tx] }

/-- `Account.__init__`: rejects a non-positive initial deposit, otherwise
seeds the log with one deposit transaction dated `now`. -/
def Account.init (initial_deposit : ℚ) (now : Nat) : Except AccountError Account :=
  if initial_deposit ≤ 0 then .error .valueError
  else .ok { initial_deposit := initial_deposit
             transactions := [⟨now, .deposit, none, 0, none, initial_deposit⟩] }

/-- `Account.deposit`. -/
def Account.deposit (a : Account) (amount : ℚ) (timestamp : Option Nat) (now : Nat) :
    Option AccountError × Account :=
  if amount ≤ 0 then (some .valueError, a)
  else
    let ts := timestamp.getD now
    (none, a.record_transaction ⟨ts, .deposit, none, 0, none, amount⟩)

/-- The first (shadowed) definition of `Account.withdraw` (lines 99-115):
its replay cutoff is `self._latest_timestamp()` when no timestamp is given. -/
def Account.withdraw_first (a : Account) (amount : ℚ) (timestamp : Option Nat) (now : Nat) :
    Option AccountError × Account :=
  if amount ≤ 0 then (some .valueError, a)
  else
    let cutoff := match timestamp with
      | none => a.latest_timestamp
      | some t => t
    let cash := (a.apply_transactions_up_to cutoff).1
    if cash < amount then (some .insufficientFunds, a)
    else
      let ts := timestamp.getD now
      (none, a.record_transaction ⟨ts, .withdraw, none, 0, none, -amount⟩)

/-- The second, effective definition of `Account.withdraw` (lines 231-246):
replay cutoff and recorded timestamp are both `timestamp or now`. -/
def Account.withdraw (a : Account) (amount : ℚ) (timestamp : Option Nat) (now : Nat) :
    Option AccountError × Account :=
  if amount ≤ 0 then (some .valueError, a)
  else
    let ts := timestamp.getD now
    let cash_before := (a.apply_transactions_up_to ts).1
    if cash_before < amount then (some .insufficientFunds, a)
    else (none, a.record_transaction ⟨ts, .withdraw, none, 0, none, -amount⟩)

/-- The first (shadowed) definition of `Account.buy` (lines 117-140). -/
def Account.buy_first (a : Account) (symbol : String) (quantity : ℚ)
    (timestamp : Option Nat) (now : Nat) : Option AccountError × Account :=
  if quantity ≤ 0 then (some .invalidQuantity, a)
  else
    match get_share_price symbol with
    | none => (some .invalidSymbol, a)
    | some price =>
      let cost := price * quantity
      let cutoff := match timestamp with
        | none => a.latest_timestamp
        | some t => t
      let cash := (a.apply_transactions_up_to cutoff).1
      if cash < cost then (some .insufficientFunds, a)
      else
        let ts := timestamp.getD now
        (none, a.record_transaction ⟨ts, .buy, some symbol, quantity, some price, -cost⟩)

/-- The second, effective definition of `Account.buy` (lines 248-269). -/
def Account.buy (a : Account) (symbol : String) (quantity : ℚ)
    (timestamp : Option Nat) (now : Nat) : Option AccountError × Account :=
  if quantity ≤ 0 then (some .invalidQuantity, a)
  else
    let ts := timestamp.getD now
    match get_share_price symbol with
    | none => (some .invalidSymbol, a)
    | some price =>
      let cost := price * quantity
      let cash_before := (a.apply_transactions_up_to ts).1
      if cash_before < cost then (some .insufficientFunds, a)
      else (none, a.record_transaction ⟨ts, .buy, some symbol, quantity, some price, -cost⟩)

/-- The first (shadowed) definition of `Account.sell` (lines 142-166): reads
the holdings component of the replay result and checks the held quantity. -/
def Account.sell_first (a : Account) (symbol : String) (quantity : ℚ)
    (timestamp : Option Nat) (now : Nat) : Option AccountError × Account :=
  if quantity ≤ 0 then (some .invalidQuantity, a)
  else
    let ts := timestamp.getD now
    let ch := a.apply_transactions_up_to ts
    let current_qty := dGetD ch.2 symbol
    if current_qty < quantity then (some .insufficientHoldings, a)
    else
      match get_share_price symbol with
      | none => (some .invalidSymbol, a)
      | some price =>
        (none, a.record_transaction ⟨ts, .sell, some symbol, -quantity, some price, price * quantity⟩)

/-- The second, effective definition of `Account.sell` (lines 271-295).
Line 280 unpacks `holdings_before, _ = self._apply_transactions_up_to(ts)`,
binding the CASH float as `holdings_before`; line 281 then calls
`holdings_before.get(symbol, 0.0)` on that float, which unconditionally
raises `AttributeError` before anything is appended. -/
def Account.sell (a : Account) (symbol : String) (quantity : ℚ)
    (timestamp : Option Nat) (now : Nat) : Option AccountError × Account :=
  if quantity ≤ 0 then (some .invalidQuantity, a)
  else
    let ts := timestamp.getD now
    let holdings_before := (a.apply_transactions_up_to ts).1
    let _ := holdings_before
    (some .attributeError, a)

/-- `Account.cash_balance`: the returned account is the object state after
the call (the method body performs no mutation). -/
def Account.cash_balance (a : Account) (as_of : Option Nat) : ℚ × Account :=
  let ts := as_of.getD a.latest_timestamp
  ((a.apply_transactions_up_to ts).1, a)

/-- `Account.holdings`: the replayed holdings dict with zero-quantity entries
filtered out; the returned account is the object state after the call. -/
def Account.holdings (a : Account) (as_of : Option Nat) : List (String × ℚ) × Account :=
  let ts := as_of.getD a.latest_timestamp
  (((a.apply_transactions_up_to ts).2).filter (fun p => p.2 != 0), a)

/-- `Account.portfolio_value`: `none` models propagating
`InvalidSymbolError` from the price lookup of a held symbol. -/
def Account.portfolio_value (a : Account) (as_of : Option Nat) : Option ℚ × Account :=
  let ts := as_of.getD a.latest_timestamp
  let ch := a.apply_transactions_up_to ts
  let mv := ch.2.foldl
    (fun acc p => acc.bind (fun m =>
      if p.2 = 0 then some m
      else (get_share_price p.1).map (fun price => m + p.2 * price))) (some 0)
  (mv.map (fun m => ch.1 + m), a)

/-- `Account.profit_loss`. -/
def Account.profit_loss (a : Account) (as_of : Option Nat) : Option ℚ × Account :=
  (((a.portfolio_value as_of).1).map (fun v => v - a.initial_deposit), a)

/-- `Account.transaction_history`: keep a transaction unless one of the two
`continue` guards fires, in insertion order. -/
def Account.transaction_history (a : Account) (since untl : Option Nat) :
    List Transaction × Account :=
  (a.transactions.filter (fun tx =>
    !(match since with
      | some s => decide (tx.timestamp < s)
      | none => false) &&
    !(match untl with
      | some u => decide (u < tx.timestamp)
      | none => false)), a)

/-- Straight-line version of the replay loop, with the early break removed
(used only to reason about `replayLoop`). -/
def replayFold : List Transaction → ℚ → List (String × ℚ) → ℚ × List (String × ℚ)
  | [], cash, holdings => (cash, holdings)
  | tx :: rest, cash, holdings => replayFold rest (cash + tx.total_amount) (replayStep holdings tx)

/-- The guard selecting the buy/sell transactions on a given symbol that the
replay loop adds into the holdings entry of that symbol. -/
def contributesTo (sym : String) (tx : Transaction) : Bool :=
  (tx.type == TxType.buy || tx.type == TxType.sell) && (tx.symbol == some sym)

/-- Keys of a dict-as-association-list. -/
def dKeys (d : List (String × ℚ)) : List String := d.map Prod.fst

/-- Fresh ledger with initial deposit 1000 created at time 0. -/
def scenAcc0 : Account := ⟨1000, [⟨0, .deposit, none, 0, none, 1000⟩]⟩

/-- `scenAcc0` after buying 2 shares of AAPL at price 150 at time 1. -/
def scenAcc1 : Account :=
  ⟨1000, [⟨0, .deposit, none, 0, none, 1000⟩, ⟨1, .buy, some "AAPL", 2, some 150, -300⟩]⟩

/-- `scenAcc1` after selling 1 share of AAPL at time 2, the state the spec
scenario expects (reachable through the first `sell` definition only). -/
def scenAcc2 : Account :=
  ⟨1000, [⟨0, .deposit, none, 0, none, 1000⟩, ⟨1, .buy, some "AAPL", 2, some 150, -300⟩,
    ⟨2, .sell, some "AAPL", -1, some 150, 150⟩]⟩

/-- Fresh ledger with cash 100 created at time 0. -/
def acc100 : Account := ⟨100, [⟨0, .deposit, none, 0, none, 100⟩]⟩

/-- `acc100` after an accepted withdrawal of 100 dated at time 10. -/
def c3acc1 : Account :=
  ⟨100, [⟨0, .deposit, none, 0, none, 100⟩, ⟨10, .withdraw, none, 0, none, -100⟩]⟩

/-- `c3acc1` after a second accepted withdrawal of 100 back-dated to time 5. -/
def c3acc2 : Account :=
  ⟨100, [⟨0, .deposit, none, 0, none, 100⟩, ⟨10, .withdraw, none, 0, none, -100⟩,
    ⟨5, .withdraw, none, 0, none, -100⟩]⟩

/-- `acc100` after an accepted withdrawal of 50 at time 5. -/
def c3wAcc : Account :=
  ⟨100, [⟨0, .deposit, none, 0, none, 100⟩, ⟨5, .withdraw, none, 0, none, -50⟩]⟩

/-- Ledger with cash 100 at time 0 and an accepted withdrawal of 50 dated
at time 10, which separates the two `withdraw` definitions when the
timestamp argument is omitted at a current time before 10. -/
def cwAcc : Account :=
  ⟨100, [⟨0, .deposit, none, 0, none, 100⟩, ⟨10, .withdraw, none, 0, none, -50⟩]⟩

lemma insertTx_perm (tx : Transaction) (l : List Transaction) :
    (insertTx tx l).Perm (tx :: l) := by
  induction l with
  | nil => simp [insertTx]
  | cons u l ih =>
    simp only [insertTx]
    split
    · exact (ih.cons u).trans (List.Perm.swap tx u l)
    · exact List.Perm.refl _

lemma sortTxs_perm (l : List Transaction) : (sortTxs l).Perm l := by
  induction l with
  | nil => exact List.Perm.refl _
  | cons u l ih => exact (insertTx_perm u (sortTxs l)).trans (ih.cons u)

lemma insertTx_pairwise (tx : Transaction) (l : List Transaction)
    (hl : l.Pairwise (fun t u => t.timestamp ≤ u.timestamp)) :
    (insertTx tx l).Pairwise (fun t u => t.timestamp ≤ u.timestamp) := by
  induction l with
  | nil => simp [insertTx]
  | cons u l ih =>
    rw [List.pairwise_cons] at hl
    obtain ⟨hu, hl⟩ := hl
    simp only [insertTx]
    split
    · rename_i hlt
      rw [List.pairwise_cons]
      refine ⟨?_, ih hl⟩
      intro x hx
      have hx' := (insertTx_perm tx l).mem_iff.mp hx
      rcases List.mem_cons.mp hx' with rfl | hx'
      · omega
      · exact hu x hx'
    · rename_i hge
      rw [List.pairwise_cons]
      refine ⟨?_, List.pairwise_cons.mpr ⟨hu, hl⟩⟩
      intro x hx
      rcases List.mem_cons.mp hx with hx | hx
      · subst hx; omega
      · have := hu x hx; omega

lemma sortTxs_pairwise (l : List Transaction) :
    (sortTxs l).Pairwise (fun t u => t.timestamp ≤ u.timestamp) := by
  induction l with
  | nil => simp [sortTxs]
  | cons u l ih => exact insertTx_pairwise u (sortTxs l) ih

lemma replayLoop_eq_fold (c : Nat) (l : List Transaction) (cash : ℚ)
    (h : List (String × ℚ)) :
    replayLoop c l cash h =
      replayFold (l.takeWhile (fun tx => tx.timestamp ≤ c)) cash h := by
  induction l generalizing cash h with
  | nil => rfl
  | cons tx rest ih =>
    simp only [replayLoop, List.takeWhile_cons]
    by_cases hc : c < tx.timestamp
    · simp [hc, show ¬ tx.timestamp ≤ c by omega, replayFold]
    · simp [hc, show tx.timestamp ≤ c by omega, replayFold, ih]

lemma takeWhile_eq_filter_of_pairwise (c : Nat) (l : List Transaction)
    (hl : l.Pairwise (fun t u => t.timestamp ≤ u.timestamp)) :
    l.takeWhile (fun tx => tx.timestamp ≤ c) =
      l.filter (fun tx => tx.timestamp ≤ c) := by
  induction l with
  | nil => rfl
  | cons tx rest ih =>
    rw [List.pairwise_cons] at hl
    obtain ⟨htx, hrest⟩ := hl
    by_cases hc : tx.timestamp ≤ c
    · simp [List.takeWhile_cons, List.filter_cons, hc, ih hrest]
    · have hfilter : rest.filter (fun tx => decide (tx.timestamp ≤ c)) = [] := by
        rw [List.filter_eq_nil_iff]
        intro x hx
        have := htx x hx
        simp only [decide_eq_true_eq]
        omega
      simp [List.takeWhile_cons, List.filter_cons, hc, hfilter]

lemma replayFold_cash (l : List Transaction) (cash : ℚ) (h : List (String × ℚ)) :
    (replayFold l cash h).1 = cash + (l.map Transaction.total_amount).sum := by
  induction l generalizing cash h with
  | nil => simp [replayFold]
  | cons tx rest ih =>
    simp only [replayFold, List.map_cons, List.sum_cons]
    rw [ih]
    ring

/-- Workhorse: the cash component of the replay is the sum of the total
amounts of the recorded transactions dated at or before the cutoff. -/
lemma apply_up_to_cash (a : Account) (c : Nat) :
    (a.apply_transactions_up_to c).1 =
      ((a.transactions.filter (fun tx => tx.timestamp ≤ c)).map
        Transaction.total_amount).sum := by
  unfold Account.apply_transactions_up_to
  rw [replayLoop_eq_fold, takeWhile_eq_filter_of_pairwise c _ (sortTxs_pairwise _),
    replayFold_cash, zero_add]
  exact (((sortTxs_perm a.transactions).filter _).map _).sum_eq

lemma dGet_dSet (d : List (String × ℚ)) (k k' : String) (v : ℚ) :
    dGet (dSet d k v) k' = if k = k' then some v else dGet d k' := by
  induction d with
  | nil =>
    simp only [dSet, dGet]
  | cons p rest ih =>
    simp only [dSet]
    by_cases hp : p.1 = k
    · rw [if_pos hp]
      simp only [dGet]
      by_cases hk : k = k'
      · simp [hk]
      · have hpk' : ¬ p.1 = k' := by rw [hp]; exact hk
        simp [hk, hpk']
    · rw [if_neg hp]
      simp only [dGet, ih]
      by_cases hpk' : p.1 = k'
      · have hkk' : ¬ k = k' := fun hh => hp (by rw [hh]; exact hpk')
        simp [hpk', hkk']
      · simp [hpk']

lemma dGet_eq_none_iff (d : List (String × ℚ)) (k : String) :
    dGet d k = none ↔ k ∉ dKeys d := by
  induction d with
  | nil => simp [dGet, dKeys]
  | cons p rest ih =>
    simp only [dGet, dKeys, List.map_cons, List.mem_cons]
    by_cases hp : p.1 = k
    · simp [hp]
    · simp only [if_neg hp]
      rw [ih]
      simp only [dKeys]
      constructor
      · intro h hk
        rcases hk with hk | hk
        · exact hp hk.symm
        · exact h hk
      · intro h hk
        exact h (Or.inr hk)

lemma replayStep_dGetD (h : List (String × ℚ)) (tx : Transaction) (sym : String)
    (hs : sym ≠ "") :
    dGetD (replayStep h tx) sym =
      dGetD h sym + (if contributesTo sym tx then tx.quantity else 0) := by
  obtain ⟨ts, ty, symb, qty, pps, tot⟩ := tx
  rcases symb with _ | s
  · cases ty <;> simp [replayStep, txAffectsHoldings, contributesTo, symTruthy]
  · by_cases hss : s = sym
    · subst hss
      cases ty <;>
        simp [replayStep, txAffectsHoldings, contributesTo, symTruthy, hs, dGetD, dGet_dSet]
    · by_cases hse : s = ""
      · subst hse
        cases ty <;>
          simp [replayStep, txAffectsHoldings, contributesTo, symTruthy, hss]
      · cases ty <;>
          simp [replayStep, txAffectsHoldings, contributesTo, symTruthy, hss, hse,
            dGetD, dGet_dSet]

lemma replayFold_dGetD (sym : String) (hs : sym ≠ "") (l : List Transaction)
    (cash : ℚ) (h : List (String × ℚ)) :
    dGetD (replayFold l cash h).2 sym =
      dGetD h sym + ((l.filter (contributesTo sym)).map Transaction.quantity).sum := by
  induction l generalizing cash h with
  | nil => simp [replayFold]
  | cons tx rest ih =>
    simp only [replayFold, List.filter_cons]
    rw [ih, replayStep_dGetD h tx sym hs]
    by_cases hcon : contributesTo sym tx = true
    · simp [hcon]
      ring
    · simp [hcon]

lemma replayStep_dGet_isSome (h : List (String × ℚ)) (tx : Transaction) (sym : String)
    (hs : sym ≠ "") :
    (dGet (replayStep h tx) sym).isSome =
      ((dGet h sym).isSome || contributesTo sym tx) := by
  obtain ⟨ts, ty, symb, qty, pps, tot⟩ := tx
  rcases symb with _ | s
  · cases ty <;> simp [replayStep, txAffectsHoldings, contributesTo, symTruthy]
  · by_cases hss : s = sym
    · subst hss
      cases ty <;>
        simp [replayStep, txAffectsHoldings, contributesTo, symTruthy, hs, dGet_dSet]
    · by_cases hse : s = ""
      · subst hse
        cases ty <;>
          simp [replayStep, txAffectsHoldings, contributesTo, symTruthy, hss]
      · cases ty <;>
          simp [replayStep, txAffectsHoldings, contributesTo, symTruthy, hss, hse, dGet_dSet]

lemma replayFold_dGet_isSome (sym : String) (hs : sym ≠ "") (l : List Transaction)
    (cash : ℚ) (h : List (String × ℚ)) :
    (dGet (replayFold l cash h).2 sym).isSome =
      ((dGet h sym).isSome || l.any (contributesTo sym)) := by
  induction l generalizing cash h with
  | nil => simp [replayFold]
  | cons tx rest ih =>
    simp only [replayFold, List.any_cons]
    rw [ih, replayStep_dGet_isSome h tx sym hs]
    by_cases hcon : contributesTo sym tx = true <;> simp [hcon]

lemma mem_dKeys_dSet (d : List (String × ℚ)) (k : String) (v : ℚ) (x : String) :
    x ∈ dKeys (dSet d k v) ↔ x = k ∨ x ∈ dKeys d := by
  induction d with
  | nil => simp [dSet, dKeys]
  | cons p rest ih =>
    simp only [dSet]
    by_cases hp : p.1 = k
    · rw [if_pos hp]
      simp [dKeys, hp]
    · rw [if_neg hp]
      simp only [dKeys, List.map_cons, List.mem_cons] at ih ⊢
      rw [ih]
      tauto

lemma nodup_dKeys_dSet (d : List (String × ℚ)) (k : String) (v : ℚ)
    (hd : (dKeys d).Nodup) : (dKeys (dSet d k v)).Nodup := by
  induction d with
  | nil => simp [dSet, dKeys]
  | cons p rest ih =>
    simp only [dKeys, List.map_cons, List.nodup_cons] at hd
    obtain ⟨hp1, hrest⟩ := hd
    simp only [dSet]
    by_cases hp : p.1 = k
    · rw [if_pos hp]
      simp only [dKeys, List.map_cons, List.nodup_cons]
      exact ⟨by rw [← hp]; exact hp1, hrest⟩
    · rw [if_neg hp]
      simp only [dKeys, List.map_cons, List.nodup_cons]
      refine ⟨?_, ih hrest⟩
      intro hmem
      rcases (mem_dKeys_dSet rest k v p.1).mp hmem with h | h
      · exact hp h
      · exact hp1 h

lemma nodup_dKeys_replayStep (h : List (String × ℚ)) (tx : Transaction)
    (hh : (dKeys h).Nodup) : (dKeys (replayStep h tx)).Nodup := by
  unfold replayStep
  split
  · exact nodup_dKeys_dSet _ _ _ hh
  · exact hh

lemma nodup_dKeys_replayFold (l : List Transaction) (cash : ℚ)
    (h : List (String × ℚ)) (hh : (dKeys h).Nodup) :
    (dKeys (replayFold l cash h).2).Nodup := by
  induction l generalizing cash h with
  | nil => exact hh
  | cons tx rest ih => exact ih _ _ (nodup_dKeys_replayStep h tx hh)

lemma dKeys_filter_subset (d : List (String × ℚ)) (q : String × ℚ → Bool) :
    dKeys (d.filter q) ⊆ dKeys d := by
  intro x hx
  simp only [dKeys, List.mem_map] at hx ⊢
  obtain ⟨p, hp, hpx⟩ := hx
  exact ⟨p, List.mem_of_mem_filter hp, hpx⟩

lemma dGet_filter_nonzero (d : List (String × ℚ)) (k : String)
    (hd : (dKeys d).Nodup) :
    dGet (d.filter (fun p => p.2 != 0)) k =
      match dGet d k with
      | some v => if v = 0 then none else some v
      | none => none := by
  induction d with
  | nil => simp [dGet]
  | cons p rest ih =>
    simp only [dKeys, List.map_cons, List.nodup_cons] at hd
    obtain ⟨hp1, hrest⟩ := hd
    by_cases hk : p.1 = k
    · by_cases hv : p.2 = 0
      · have hnone : dGet (rest.filter (fun p => p.2 != 0)) k = none := by
          rw [dGet_eq_none_iff]
          intro hmem
          exact hp1 (hk ▸ dKeys_filter_subset rest _ hmem)
        simp [List.filter_cons, hv, dGet, hk, hnone]
      · simp [List.filter_cons, hv, dGet, hk]
    · by_cases hv : p.2 = 0
      · simp [List.filter_cons, hv, dGet, hk, ih hrest]
      · simp [List.filter_cons, hv, dGet, hk, ih hrest]

/-- Workhorse: the holdings entry for a (nonempty-named) symbol after the
replay is exactly the sum of the signed quantities of the buy/sell
transactions on that symbol dated at or before the cutoff, and the entry
exists iff at least one such loop iteration touched the symbol. -/
lemma apply_up_to_holdings (a : Account) (c : Nat) (sym : String) (hs : sym ≠ "") :
    dGetD (a.apply_transactions_up_to c).2 sym =
      (((a.transactions.filter (fun tx => tx.timestamp ≤ c)).filter
        (contributesTo sym)).map Transaction.quantity).sum ∧
    (dGet (a.apply_transactions_up_to c).2 sym).isSome =
      ((a.transactions.filter (fun tx => tx.timestamp ≤ c)).any (contributesTo sym)) := by
  unfold Account.apply_transactions_up_to
  rw [replayLoop_eq_fold, takeWhile_eq_filter_of_pairwise c _ (sortTxs_pairwise _)]
  have hperm : ((sortTxs a.transactions).filter (fun tx => tx.timestamp ≤ c)).Perm
      (a.transactions.filter (fun tx => tx.timestamp ≤ c)) :=
    (sortTxs_perm a.transactions).filter _
  constructor
  · rw [replayFold_dGetD sym hs]
    simp only [dGetD, dGet, Option.getD_none, zero_add]
    exact ((hperm.filter _).map _).sum_eq
  · rw [replayFold_dGet_isSome sym hs]
    simp only [dGet, Option.isSome_none, Bool.false_or]
    rcases hany : (a.transactions.filter (fun tx => decide (tx.timestamp ≤ c))).any
        (contributesTo sym) with _ | _
    · rw [hany]
      rw [List.any_eq_false] at hany ⊢
      intro x hx
      exact hany x (hperm.mem_iff.mp hx)
    · rw [hany]
      rw [List.any_eq_true] at hany ⊢
      obtain ⟨x, hx, hcx⟩ := hany
      exact ⟨x, hperm.mem_iff.mpr hx, hcx⟩

lemma nodup_dKeys_apply_up_to (a : Account) (c : Nat) :
    (dKeys (a.apply_transactions_up_to c).2).Nodup := by
  unfold Account.apply_transactions_up_to
  rw [replayLoop_eq_fold]
  exact nodup_dKeys_replayFold _ _ _ (by simp [dKeys])

lemma cash_after_record (a : Account) (tx : Transaction) (c : Nat)
    (htx : tx.timestamp ≤ c) :
    ((a.record_transaction tx).apply_transactions_up_to c).1 =
      (a.apply_transactions_up_to c).1 + tx.total_amount := by
  rw [apply_up_to_cash, apply_up_to_cash]
  simp [Account.record_transaction, List.filter_append, htx]

/-- C1: for every account state and every positive quantity, the effective
(overriding) definition of `sell` raises before any transaction is appended:
it binds the cash component of the replay result as `holdings_before` and the
mapping lookup on that float raises AttributeError, so the call returns that
error with the transaction log unchanged, and no sell transaction is ever
appended by it. -/
theorem sell_effective_raises_before_append (a : Account) (sym : String) (q : ℚ)
    (ts : Option Nat) (now : Nat) (hq : 0 < q) :
    a.sell sym q ts now = (some AccountError.attributeError, a) := by
  unfold Account.sell
  rw [if_neg (by linarith)]

/-- Witness for C1 at a concrete input. -/
theorem sell_effective_raises_before_append_witness :
    (0 : ℚ) < 1 ∧
    scenAcc1.sell "AAPL" 1 (some 2) 2 = (some AccountError.attributeError, scenAcc1) :=
  ⟨by norm_num, sell_effective_raises_before_append scenAcc1 "AAPL" 1 (some 2) 2 (by norm_num)⟩

/-- C2 (code bug): evaluation of the spec scenario.  Creating the ledger with
initial deposit 1000 and buying 2 shares of AAPL at price 150 leaves cash 700
and holdings mapping AAPL to 2, as the claim states; but the subsequent sell
of 1 share raises AttributeError through the effective `sell` and appends
nothing, while the shadowed first `sell` definition produces the behaviour
the claim (and the repository test `test_sell_positive_and_errors`) expects:
cash 850 and holdings mapping AAPL to 1. -/
theorem scenario_buy_sell_eval :
    Account.init 1000 0 = .ok scenAcc0 ∧
    scenAcc0.buy "AAPL" 2 (some 1) 1 = (none, scenAcc1) ∧
    (scenAcc1.cash_balance (some 1)).1 = 700 ∧
    dGet (scenAcc1.holdings (some 1)).1 "AAPL" = some 2 ∧
    scenAcc1.sell "AAPL" 1 (some 2) 2 = (some AccountError.attributeError, scenAcc1) ∧
    scenAcc1.sell_first "AAPL" 1 (some 2) 2 = (none, scenAcc2) ∧
    (scenAcc2.cash_balance (some 2)).1 = 850 ∧
    dGet (scenAcc2.holdings (some 2)).1 "AAPL" = some 1 := by
  refine ⟨?_, ?_, ?_, ?_, ?_, ?_, ?_, ?_⟩ <;>
    norm_num [Account.init, Account.buy, Account.sell, Account.sell_first,
      Account.cash_balance, Account.holdings, Account.apply_transactions_up_to,
      Account.record_transaction, sortTxs, insertTx, replayLoop, replayStep,
      txAffectsHoldings, symTruthy, get_share_price, dSet, dGetD, dGet,
      scenAcc0, scenAcc1, scenAcc2]

/-- C4: for every account state and timestamp `T`, the cash balance as of
`T` equals the sum of the total amounts of the recorded transactions with
timestamp at most `T`. -/
theorem cash_balance_eq_sum_filter (a : Account) (T : Nat) :
    (a.cash_balance (some T)).1 =
      ((a.transactions.filter (fun tx => tx.timestamp ≤ T)).map
        Transaction.total_amount).sum :=
  apply_up_to_cash a T

/-- C8: buying any positive quantity of a symbol outside the price oracle
catalog fails with InvalidSymbolError and leaves the transaction log
unchanged. -/
theorem buy_unknown_symbol_invalid (a : Account) (sym : String) (q : ℚ)
    (ts : Option Nat) (now : Nat) (hq : 0 < q)
    (hsym : get_share_price sym = none) :
    a.buy sym q ts now = (some AccountError.invalidSymbol, a) := by
  unfold Account.buy
  rw [if_neg (by linarith), hsym]

/-- Witness for C8 at a concrete input. -/
theorem buy_unknown_symbol_invalid_witness :
    (0 : ℚ) < 1 ∧ get_share_price "MSFT" = none ∧
    scenAcc0.buy "MSFT" 1 (some 1) 1 = (some AccountError.invalidSymbol, scenAcc0) :=
  ⟨by norm_num, by simp [get_share_price],
    buy_unknown_symbol_invalid scenAcc0 "MSFT" 1 (some 1) 1 (by norm_num)
      (by simp [get_share_price])⟩

/-- C9: `transaction_history since until` returns exactly the recorded
transactions whose timestamp lies in the inclusive range, an unset bound
being unbounded, as a filter of the log in original insertion order. -/
theorem transaction_history_filter_range (a : Account) (since untl : Option Nat) :
    (a.transaction_history since untl).1 =
      a.transactions.filter (fun tx =>
        (match since with
         | none => true
         | some s => decide (s ≤ tx.timestamp)) &&
        (match untl with
         | none => true
         | some u => decide (tx.timestamp ≤ u))) := by
  unfold Account.transaction_history
  apply List.filter_congr
  intro tx _
  cases since <;> cases untl <;> simp [Nat.not_lt, ← decide_not]

/-- C10: every query (cash balance, holdings, portfolio value, profit/loss,
transaction history) leaves the account unchanged, and calling it twice with
the same arguments and no intervening mutation yields the same value. -/
theorem queries_idempotent_no_mutation (a : Account) (asOf since untl : Option Nat) :
    ((a.cash_balance asOf).2 = a ∧
      ((a.cash_balance asOf).2.cash_balance asOf).1 = (a.cash_balance asOf).1) ∧
    ((a.holdings asOf).2 = a ∧
      ((a.holdings asOf).2.holdings asOf).1 = (a.holdings asOf).1) ∧
    ((a.portfolio_value asOf).2 = a ∧
      ((a.portfolio_value asOf).2.portfolio_value asOf).1 = (a.portfolio_value asOf).1) ∧
    ((a.profit_loss asOf).2 = a ∧
      ((a.profit_loss asOf).2.profit_loss asOf).1 = (a.profit_loss asOf).1) ∧
    ((a.transaction_history since untl).2 = a ∧
      ((a.transaction_history since untl).2.transaction_history since untl).1 =
        (a.transaction_history since untl).1) :=
  ⟨⟨rfl, rfl⟩, ⟨rfl, rfl⟩, ⟨rfl, rfl⟩, ⟨rfl, rfl⟩, ⟨rfl, rfl⟩⟩

/-- C5: for every account state, timestamp `T` and nonempty symbol name, the
holdings query at `T` maps the symbol to the sum of the signed quantities of
the buy/sell transactions on that symbol dated at most `T`, and omits the
symbol exactly when that sum is zero. -/
theorem holdings_lookup_eq_signed_sum (a : Account) (T : Nat) (sym : String)
    (hs : sym ≠ "") :
    dGet (a.holdings (some T)).1 sym =
      (if (((a.transactions.filter (fun tx => tx.timestamp ≤ T)).filter
            (contributesTo sym)).map Transaction.quantity).sum = 0
       then none
       else some ((((a.transactions.filter (fun tx => tx.timestamp ≤ T)).filter
            (contributesTo sym)).map Transaction.quantity).sum)) := by
  have hmaster := apply_up_to_holdings a T sym hs
  have hnd := nodup_dKeys_apply_up_to a T
  have hq : (a.holdings (some T)).1 =
      ((a.apply_transactions_up_to T).2).filter (fun p => p.2 != 0) := rfl
  rw [hq, dGet_filter_nonzero _ _ hnd]
  rcases hg : dGet (a.apply_transactions_up_to T).2 sym with _ | v
  · have hany : (a.transactions.filter (fun tx => decide (tx.timestamp ≤ T))).any
        (contributesTo sym) = false := by
      rw [← hmaster.2, hg]
      rfl
    have hfilter : (a.transactions.filter
        (fun tx => decide (tx.timestamp ≤ T))).filter (contributesTo sym) = [] := by
      rw [List.filter_eq_nil_iff]
      rw [List.any_eq_false] at hany
      exact hany
    rw [hfilter]
    simp
  · have hv : v = (((a.transactions.filter (fun tx => decide (tx.timestamp ≤ T))).filter
        (contributesTo sym)).map Transaction.quantity).sum := by
      have h1 := hmaster.1
      rw [dGetD, hg] at h1
      simpa using h1
    rw [hv]

/-- Witness for C5 at a concrete input: after buying 2 shares of AAPL the
holdings query maps AAPL to the claimed signed sum. -/
theorem holdings_lookup_eq_signed_sum_witness :
    "AAPL" ≠ "" ∧
    dGet (scenAcc1.holdings (some 1)).1 "AAPL" =
      (if (((scenAcc1.transactions.filter (fun tx => tx.timestamp ≤ 1)).filter
            (contributesTo "AAPL")).map Transaction.quantity).sum = 0
       then none
       else some ((((scenAcc1.transactions.filter (fun tx => tx.timestamp ≤ 1)).filter
            (contributesTo "AAPL")).map Transaction.quantity).sum)) :=
  ⟨by decide, holdings_lookup_eq_signed_sum scenAcc1 1 "AAPL" (by decide)⟩

/-- C3 counterexample: a ledger created with 100 accepts a withdrawal of 100
dated at time 10, then accepts a second withdrawal of 100 back-dated to
time 5; afterwards the replayed cash balance as of time 10 — a timestamp at
which a withdrawal was accepted — is -100, which is negative.  The claimed
invariant therefore fails for sequences with explicit past timestamps. -/
theorem replay_invariant_counterexample :
    Account.init 100 0 = .ok acc100 ∧
    acc100.withdraw 100 (some 10) 20 = (none, c3acc1) ∧
    c3acc1.withdraw 100 (some 5) 30 = (none, c3acc2) ∧
    (c3acc2.cash_balance (some 10)).1 = -100 := by
  refine ⟨?_, ?_, ?_, ?_⟩ <;>
    norm_num [Account.init, Account.withdraw, Account.cash_balance,
      Account.apply_transactions_up_to, Account.record_transaction,
      sortTxs, insertTx, replayLoop, replayStep, txAffectsHoldings, symTruthy,
      acc100, c3acc1, c3acc2]

/-- C3 (amended): immediately after each accepted withdraw or buy, the
replayed cash balance as of the effective timestamp of that operation is
nonnegative.  (The unamended claim quantifies over all later states of the
run; it fails once a later operation is back-dated, as the counterexample
shows.  The holdings half of the claim is vacuous for the effective `sell`,
which never accepts; see C1.) -/
theorem cash_nonneg_after_accepted_op (a : Account) (amt q : ℚ) (sym : String)
    (ts : Option Nat) (now : Nat) :
    (∀ a', a.withdraw amt ts now = (none, a') →
      0 ≤ (a'.cash_balance (some (ts.getD now))).1) ∧
    (∀ a', a.buy sym q ts now = (none, a') →
      0 ≤ (a'.cash_balance (some (ts.getD now))).1) := by
  constructor
  · intro a' h
    unfold Account.withdraw at h
    by_cases h1 : amt ≤ 0
    · rw [if_pos h1] at h
      exact absurd h (by simp)
    · rw [if_neg h1] at h
      by_cases h2 : (a.apply_transactions_up_to (ts.getD now)).1 < amt
      · rw [if_pos h2] at h
        exact absurd h (by simp)
      · rw [if_neg h2] at h
        simp only [Prod.mk.injEq, true_and] at h
        rw [← h]
        show (0 : ℚ) ≤
          ((a.record_transaction
            ⟨ts.getD now, .withdraw, none, 0, none, -amt⟩).apply_transactions_up_to
              (ts.getD now)).1
        rw [cash_after_record a _ (ts.getD now) (le_refl _)]
        push_neg at h2
        show (0 : ℚ) ≤ (a.apply_transactions_up_to (ts.getD now)).1 + -amt
        linarith
  · intro a' h
    unfold Account.buy at h
    by_cases h1 : q ≤ 0
    · rw [if_pos h1] at h
      exact absurd h (by simp)
    · rw [if_neg h1] at h
      rcases hp : get_share_price sym with _ | price
      · rw [hp] at h
        exact absurd h (by simp)
      · rw [hp] at h
        simp only at h
        by_cases h2 : (a.apply_transactions_up_to (ts.getD now)).1 < price * q
        · rw [if_pos h2] at h
          exact absurd h (by simp)
        · rw [if_neg h2] at h
          simp only [Prod.mk.injEq, true_and] at h
          rw [← h]
          show (0 : ℚ) ≤
            ((a.record_transaction
              ⟨ts.getD now, .buy, some sym, q, some price,
                -(price * q)⟩).apply_transactions_up_to (ts.getD now)).1
          rw [cash_after_record a _ (ts.getD now) (le_refl _)]
          push_neg at h2
          show (0 : ℚ) ≤ (a.apply_transactions_up_to (ts.getD now)).1 + -(price * q)
          linarith

/-- Witness for C3 (amended) at a concrete input: an accepted withdrawal of
50 from a ledger with cash 100 leaves the replayed balance at its effective
timestamp nonnegative. -/
theorem cash_nonneg_after_accepted_op_witness :
    0 ≤ (c3wAcc.cash_balance (some 5)).1 :=
  (cash_nonneg_after_accepted_op acc100 50 1 "AAPL" (some 5) 5).1 c3wAcc
    (by norm_num [Account.withdraw, Account.apply_transactions_up_to,
      Account.record_transaction, sortTxs, insertTx, replayLoop, replayStep,
      txAffectsHoldings, symTruthy, acc100, c3wAcc])

/-- C6 counterexample: the duplicated definitions are not behaviorally
equivalent.  On a ledger holding 2 shares of AAPL, selling 1 share with an
explicit timestamp succeeds under the first `sell` definition but raises
AttributeError under the overriding one; and on a ledger whose log contains
a withdrawal dated at time 10, `withdraw 60` with no timestamp at current
time 5 fails under the first definition (which replays at the latest
recorded timestamp, 10) but succeeds under the overriding one (which
replays at the current time, 5). -/
theorem duplicate_defs_inequivalent :
    (scenAcc1.sell_first "AAPL" 1 (some 2) 2).1 = none ∧
    (scenAcc1.sell "AAPL" 1 (some 2) 2).1 = some AccountError.attributeError ∧
    cwAcc.withdraw_first 60 none 5 = (some AccountError.insufficientFunds, cwAcc) ∧
    (cwAcc.withdraw 60 none 5).1 = none := by
  refine ⟨?_, ?_, ?_, ?_⟩ <;>
    norm_num [Account.sell, Account.sell_first, Account.withdraw,
      Account.withdraw_first, Account.latest_timestamp,
      Account.apply_transactions_up_to, Account.record_transaction,
      sortTxs, insertTx, replayLoop, replayStep, txAffectsHoldings, symTruthy,
      get_share_price, dSet, dGetD, dGet, scenAcc1, cwAcc]

/-- C6 (amended): when an explicit timestamp is supplied, the shadowed and
the overriding definitions of `withdraw` and of `buy` are behaviorally
equivalent — same error or same appended transaction.  (With the timestamp
omitted they differ, because the first definitions replay at the latest
recorded timestamp while the overriding ones replay at the current time;
and the two `sell` definitions are not equivalent at all, the overriding
one failing on every positive quantity — see the counterexample.) -/
theorem duplicate_defs_agree_explicit_ts (a : Account) (amt q : ℚ) (sym : String)
    (t now : Nat) :
    a.withdraw_first amt (some t) now = a.withdraw amt (some t) now ∧
    a.buy_first sym q (some t) now = a.buy sym q (some t) now := by
  constructor
  · rfl
  · unfold Account.buy_first Account.buy
    rcases get_share_price sym with _ | price <;> rfl

/-- C7: for each of the four mutation operations, every failing call leaves
the transaction log exactly as it was: all validation and balance/holdings
checks happen strictly before the new transaction is appended. -/
theorem failed_op_leaves_log_unchanged (a : Account) (amt q : ℚ) (sym : String)
    (ts : Option Nat) (now : Nat) (e : AccountError) :
    ((a.deposit amt ts now).1 = some e → (a.deposit amt ts now).2 = a) ∧
    ((a.withdraw amt ts now).1 = some e → (a.withdraw amt ts now).2 = a) ∧
    ((a.buy sym q ts now).1 = some e → (a.buy sym q ts now).2 = a) ∧
    ((a.sell sym q ts now).1 = some e → (a.sell sym q ts now).2 = a) := by
  refine ⟨?_, ?_, ?_, ?_⟩
  · intro h
    unfold Account.deposit at h ⊢
    by_cases h1 : amt ≤ 0
    · rw [if_pos h1]
    · rw [if_neg h1] at h
      simp at h
  · intro h
    unfold Account.withdraw at h ⊢
    by_cases h1 : amt ≤ 0
    · rw [if_pos h1]
    · rw [if_neg h1] at h ⊢
      by_cases h2 : (a.apply_transactions_up_to (ts.getD now)).1 < amt
      · rw [if_pos h2]
      · rw [if_neg h2] at h
        simp at h
  · intro h
    unfold Account.buy at h ⊢
    by_cases h1 : q ≤ 0
    · rw [if_pos h1]
    · rw [if_neg h1] at h ⊢
      rcases hp : get_share_price sym with _ | price
      · rfl
      · rw [hp] at h
        by_cases h2 : (a.apply_transactions_up_to (ts.getD now)).1 < price * q
        · show (if (a.apply_transactions_up_to (ts.getD now)).1 < price * q then
              (some AccountError.insufficientFunds, a)
            else (none, a.record_transaction ⟨ts.getD now, .buy, some sym, q, some price,
              -(price * q)⟩)).2 = a
          rw [if_pos h2]
        · exfalso
          have h' : (if (a.apply_transactions_up_to (ts.getD now)).1 < price * q then
              (some AccountError.insufficientFunds, a)
            else (none, a.record_transaction ⟨ts.getD now, .buy, some sym, q, some price,
              -(price * q)⟩)).1 = some e := h
          rw [if_neg h2] at h'
          simp at h'
  · intro h
    unfold Account.sell at h ⊢
    by_cases h1 : q ≤ 0
    · rw [if_pos h1]
    · rw [if_neg h1]

/-- Witness for C7 at the spec scenario: a ledger with cash 100 rejects a
withdrawal of 1000 with InsufficientFundsError and its log is unchanged. -/
theorem failed_op_leaves_log_unchanged_witness :
    (acc100.withdraw 1000 (some 1) 1).1 = some AccountError.insufficientFunds ∧
    (acc100.withdraw 1000 (some 1) 1).2 = acc100 :=
  ⟨by norm_num [Account.withdraw, Account.apply_transactions_up_to,
      sortTxs, insertTx, replayLoop, replayStep, txAffectsHoldings, symTruthy, acc100],
    (failed_op_leaves_log_unchanged acc100 1000 1 "AAPL" (some 1) 1
        AccountError.insufficientFunds).2.1
      (by norm_num [Account.withdraw, Account.apply_transactions_up_to,
        sortTxs, insertTx, replayLoop, replayStep, txAffectsHoldings, symTruthy, acc100])⟩
